import Mathlib

/-!
Verification of the zapvault scan-orchestration service (src/index.js).

The development shallowly embeds the program: pure helpers become Lean
functions; the asynchronous polling loops become explicit recursion over a
virtual clock in which every `setTimeout(POLL_INTERVAL_MS)` advances elapsed
time by `POLL_INTERVAL_MS` and remote calls are instantaneous; the external
ZAP daemon becomes an explicit oracle (`Daemon`) recording the response of
each control call; fallible operations return `Except` or a dedicated
outcome type.  The WHATWG URL parser used by `normalizeUrl` (Node `URL`) is
an external dependency of the repository; it is modelled here on the
fragment of its behaviour the service exercises: scheme parsing with ASCII
lowercasing, authority parsing for the special schemes http/https (host
lowercasing, default-port elision, canonical port digits, slash folding,
backslash-to-slash path conversion, implicit "/" path), and non-special
schemes carrying their remainder verbatim.  Userinfo, IPv6 hosts, punycode
and percent-encoding normalisation are outside the modelled fragment: inputs
needing them are rejected by the model.
-/

/-! ## Configuration constants (src/index.js lines 18 and 19) -/

def MAX_SCAN_TIME_MS : Nat := 3 * 60 * 1000

def POLL_INTERVAL_MS : Nat := 3000

/-! ## Character classes for the URL model -/

/-- ASCII letter, the set of valid scheme start characters. -/
def isSchemeStart (c : Char) : Bool :=
  (65 ≤ c.toNat && c.toNat ≤ 90) || (97 ≤ c.toNat && c.toNat ≤ 122)

/-- ASCII digit. -/
def isAsciiDigitC (c : Char) : Bool :=
  48 ≤ c.toNat && c.toNat ≤ 57

/-- Characters allowed in a URL scheme after the first one. -/
def isSchemeChar (c : Char) : Bool :=
  isSchemeStart c || isAsciiDigitC c || c == '+' || c == '-' || c == '.'

/-- Characters ending the host portion of an authority. -/
def isHostEnd (c : Char) : Bool :=
  c == ':' || c == '/' || c == '\\' || c == '?' || c == '#'

/-- Forward slash or backslash, folded away before the host. -/
def isSlashC (c : Char) : Bool :=
  c == '/' || c == '\\'

/-- Start of the query or fragment portion of a URL. -/
def isPathEnd (c : Char) : Bool :=
  c == '?' || c == '#'

/-- Code points the model forbids inside a host: controls, space,
non-ASCII (which real WHATWG would punycode) and the forbidden host
characters of the URL standard. -/
def isForbiddenHost (c : Char) : Bool :=
  c.toNat ≤ 32 || 127 ≤ c.toNat || c == '<' || c == '>' || c == '@' ||
  c == '[' || c == ']' || c == '^' || c == '|' || c == '%' || c == '"'

/-- Conjunction of the two host checks: not a delimiter, not forbidden. -/
def hostCharOK (c : Char) : Bool := !(isHostEnd c) && !(isForbiddenHost c)

abbrev Chars := List Char

/-! ## URL records, mirroring the observable fields of Node URL objects -/

/-- Everything after the scheme: an authority with host, optional port
(kept as its canonical digit string, `[]` meaning no port) and path
remainder for the special schemes, or the verbatim remainder for
non-special schemes such as javascript: or mailto:. -/
inductive URLRest where
  | auth (host : Chars) (port : Chars) (path : Chars)
  | nonspecial (p : Chars)
deriving DecidableEq

structure URLRecord where
  scheme : Chars
  rest : URLRest
deriving DecidableEq

/-- The `protocol` property of a parsed URL: lowercase scheme plus colon. -/
def URLRecord.protocol (r : URLRecord) : String :=
  String.mk (r.scheme ++ [':'])

/-- Serialised character form of a URL record. -/
def hrefChars (r : URLRecord) : Chars :=
  match r.rest with
  | .auth h p path =>
      r.scheme ++ ':' :: '/' :: '/' ::
        (h ++ (if p.isEmpty then [] else ':' :: p) ++ path)
  | .nonspecial p => r.scheme ++ ':' :: p

/-- The `href` property of a parsed URL: its serialisation. -/
def URLRecord.href (r : URLRecord) : String :=
  String.mk (hrefChars r)

/-! ## URL parsing -/

/-- Split the scheme off the input: everything before the first colon,
validated and lowercased.  Fails when there is no colon or the scheme is
empty or malformed. -/
def parseScheme (l : Chars) : Option (Chars × Chars) :=
  let pre := l.takeWhile (fun c => !(c == ':'))
  let post := l.dropWhile (fun c => !(c == ':'))
  if post.isEmpty then none
  else
    match pre with
    | [] => none
    | c :: cs =>
        if isSchemeStart c && (c :: cs).all isSchemeChar then
          some ((c :: cs).map Char.toLower, post.tail)
        else none

/-- Canonical form of a port digit string: leading zeros removed, a single
zero kept for the all-zero string, empty kept empty. -/
def canonDigits (ds : Chars) : Chars :=
  let l := ds.dropWhile (fun c => c == '0')
  if l.isEmpty then (if ds.isEmpty then [] else ['0']) else l

/-- Default port digits of a special scheme. -/
def defaultPort (scheme : Chars) : Chars :=
  if scheme = "http".data then "80".data else "443".data

/-- Normalise the path remainder of a special URL: backslashes in the path
proper become slashes, an empty path becomes "/", query and fragment pass
through verbatim. -/
def parsePath (r : Chars) : Chars :=
  let pp := (r.takeWhile (fun c => !(isPathEnd c))).map
    (fun c => if c == '\\' then '/' else c)
  let tl := r.dropWhile (fun c => !(isPathEnd c))
  (if pp.isEmpty then ['/'] else pp) ++ tl

/-- Parse the authority and path of a special (http/https) URL: fold away
leading slashes, take the host up to a delimiter, reject empty or forbidden
hosts, parse an optional all-digit port (eliding the scheme default), then
normalise the path. -/
def parseSpecialRest (scheme : Chars) (l : Chars) : Option URLRest :=
  let l1 := l.dropWhile isSlashC
  let host := l1.takeWhile (fun c => !(isHostEnd c))
  let r1 := l1.dropWhile (fun c => !(isHostEnd c))
  if host.isEmpty then none
  else if host.any isForbiddenHost then none
  else
    let hostL := host.map Char.toLower
    if r1.headD ' ' = ':' then
      let r2 := r1.tail
      let digits := r2.takeWhile isAsciiDigitC
      let r3 := r2.dropWhile isAsciiDigitC
      if r3.isEmpty || isSlashC (r3.headD ' ') || isPathEnd (r3.headD ' ') then
        let cd := canonDigits digits
        let port := if cd = defaultPort scheme then [] else cd
        some (.auth hostL port (parsePath r3))
      else none
    else some (.auth hostL [] (parsePath r1))

/-- Parse a character list as a URL. -/
def parseURLChars (l : Chars) : Option URLRecord :=
  match parseScheme l with
  | none => none
  | some (scheme, rest) =>
      if scheme = "http".data ∨ scheme = "https".data then
        match parseSpecialRest scheme rest with
        | none => none
        | some r => some ⟨scheme, r⟩
      else some ⟨scheme, .nonspecial rest⟩

/-- Model of `new URL(s)`: `none` models the constructor throwing. -/
def parseURL (s : String) : Option URLRecord :=
  parseURLChars s.data

/-- `normalizeUrl` from src/index.js lines 47 to 56: parse the input,
require an http or https protocol, and return the href.  Both a parse
failure and a bad protocol surface as the same "Invalid URL" error because
the protocol throw happens inside the try block and is swallowed by the
catch. -/
def normalizeUrl (u : String) : Except String String :=
  match parseURL u with
  | none => .error "Invalid URL"
  | some r =>
      if r.protocol = "http:" ∨ r.protocol = "https:" then .ok r.href
      else .error "Invalid URL"

/-! ## JavaScript numeric semantics of the status polling -/

/-- The values `Math.max` can produce here: a finite integer, NaN when any
argument is NaN, or negative infinity for the empty spread. -/
inductive JsNum where
  | nan
  | negInf
  | val (n : Int)
deriving DecidableEq

/-- `parseInt(s, 10)`: skip whitespace, optional sign, then leading decimal
digits; no digits gives NaN (modelled as `none`). -/
def jsParseInt (s : String) : Option Int :=
  let cs := s.data.dropWhile (fun c =>
    c == ' ' || c == '\t' || c == '\n' || c == '\r' || c.toNat == 11 || c.toNat == 12)
  let signed : Int × Chars :=
    match cs with
    | '-' :: r => (-1, r)
    | '+' :: r => (1, r)
    | r => (1, r)
  let ds := signed.2.takeWhile isAsciiDigitC
  if ds.isEmpty then none
  else some (signed.1 * (ds.foldl (fun a c => a * 10 + (c.toNat - 48)) 0 : Nat))

/-- Two-argument `Math.max` on the modelled values: NaN absorbs. -/
def jsMax2 : JsNum → JsNum → JsNum
  | .nan, _ => .nan
  | _, .nan => .nan
  | .negInf, b => b
  | a, .negInf => a
  | .val a, .val b => .val (max a b)

/-- A status response body: a JSON object as an association list from
sub-scan id to percentage string. -/
abbrev StatusMap := List (String × String)

/-- `Math.max(...Object.values(status).map(v => parseInt(v, 10)))`. -/
def statusMax (st : StatusMap) : JsNum :=
  (st.map (fun kv => match jsParseInt kv.2 with
    | none => JsNum.nan
    | some n => JsNum.val n)).foldl jsMax2 .negInf

/-- `perc >= 100` in JavaScript: false for NaN and negative infinity. -/
def jsGE100 : JsNum → Bool
  | .val n => 100 ≤ n
  | _ => false

/-- The completion test of both polling loops (src/index.js lines 70 to 71
and 81 to 82). -/
def percComplete (st : StatusMap) : Bool :=
  jsGE100 (statusMax st)

/-! ## The daemon oracle and the polling loops -/

/-- Alerts are opaque records passed through unmodified; they are modelled
as opaque tokens. -/
abbrev Alert := String

/-- Body of the alerts view response; the `alerts` field may be missing. -/
structure AlertsResponse where
  alerts : Option (List Alert)
deriving DecidableEq

/-- Oracle for one scan worth of daemon behaviour: the outcome of each
control call, with status views indexed by how many polls this phase has
already made.  `Except.error m` models a failed transport call whose error
message is `m`. -/
structure Daemon where
  spiderStart : Except String Unit
  spiderStatus : Nat → Except String StatusMap
  ascanStart : Except String Unit
  ascanStatus : Nat → Except String StatusMap
  contextInclude : Except String Unit
  pscanAll : Except String Unit
  alertsCall : Except String AlertsResponse

/-- Result of one polling loop, with the elapsed virtual time (milliseconds
since the scan started) at which the loop ended. -/
inductive PollOutcome where
  | completed (polls : Nat) (elapsedMs : Nat)
  | timedOut (elapsedMs : Nat)
  | failed (msg : String) (elapsedMs : Nat)
deriving DecidableEq

/-- One polling loop of `performScan` (src/index.js lines 66 to 72 and 77
to 83): check the budget against time elapsed since the original scan
start, wait one poll interval, query the status, and stop when the maximum
reported percentage reaches 100. -/
def pollPhase (status : Nat → Except String StatusMap)
    (poll elapsed : Nat) : PollOutcome :=
  if _h : MAX_SCAN_TIME_MS < elapsed then .timedOut elapsed
  else
    match status poll with
    | .error m => .failed m (elapsed + POLL_INTERVAL_MS)
    | .ok st =>
        if percComplete st then .completed (poll + 1) (elapsed + POLL_INTERVAL_MS)
        else pollPhase status (poll + 1) (elapsed + POLL_INTERVAL_MS)
termination_by MAX_SCAN_TIME_MS + 1 - elapsed
decreasing_by simp [MAX_SCAN_TIME_MS, POLL_INTERVAL_MS] at *; omega

/-! ## Scan results and the orchestrator -/

/-- The JSON object a scan resolves with; `completedAtMs` models the
completion timestamp as virtual elapsed milliseconds, `mode` is present
only for quick scans, matching the source objects. -/
structure ScanResult where
  target : String
  mode : Option String
  alerts : List Alert
  completedAtMs : Nat
deriving DecidableEq

/-- Error taxonomy of the orchestrator: the messages carried by the thrown
`Error` objects of the source. -/
inductive ZapError where
  | invalidUrl
  | timeoutSpider
  | timeoutAscan
  | remote (msg : String)
deriving DecidableEq

def ZapError.message : ZapError → String
  | .invalidUrl => "Invalid URL"
  | .timeoutSpider => "Timeout spider"
  | .timeoutAscan => "Timeout ascan"
  | .remote m => m

/-- Outcome of one orchestrated scan, with the virtual time at which an
error was thrown. -/
inductive ScanOutcome where
  | ok (r : ScanResult)
  | error (e : ZapError) (atMs : Nat)
deriving DecidableEq

/-- `performScan` (src/index.js lines 59 to 88): warm-up fetch with errors
swallowed (not observable, hence not modelled), spider start, spider
polling loop, active-scan start, active-scan polling loop continuing with
the elapsed time of the first loop (the budget is never reset), then the
alerts query with `alerts.alerts || []`. -/
def performScan (d : Daemon) (target : String) : ScanOutcome :=
  match d.spiderStart with
  | .error m => .error (.remote m) 0
  | .ok _ =>
      match pollPhase d.spiderStatus 0 0 with
      | .timedOut e => .error .timeoutSpider e
      | .failed m e => .error (.remote m) e
      | .completed _ e1 =>
          match d.ascanStart with
          | .error m => .error (.remote m) e1
          | .ok _ =>
              match pollPhase d.ascanStatus 0 e1 with
              | .timedOut e => .error .timeoutAscan e
              | .failed m e => .error (.remote m) e
              | .completed _ e2 =>
                  match d.alertsCall with
                  | .error m => .error (.remote m) e2
                  | .ok resp =>
                      .ok { target := target, mode := none,
                            alerts := resp.alerts.getD [],
                            completedAtMs := e2 }

/-- `performQuickScan` (src/index.js lines 91 to 98): warm-up, context
inclusion, fire-and-forget passive scan, then the same alerts query; no
polling and no timeout. -/
def performQuickScan (d : Daemon) (target : String) : ScanOutcome :=
  match d.contextInclude with
  | .error m => .error (.remote m) 0
  | .ok _ =>
      match d.pscanAll with
      | .error m => .error (.remote m) 0
      | .ok _ =>
          match d.alertsCall with
          | .error m => .error (.remote m) 0
          | .ok resp =>
              .ok { target := target, mode := some "quick-passive",
                    alerts := resp.alerts.getD [],
                    completedAtMs := 0 }

/-! ## Control API request paths -/

/-- `encodeURIComponent`: unreserved characters pass, everything else is
percent-encoded per UTF-8 byte with uppercase hex. -/
def hexUpper (n : Nat) : Char :=
  if n < 10 then Char.ofNat (48 + n) else Char.ofNat (55 + n)

def isUnreservedURI (c : Char) : Bool :=
  isSchemeStart c || isAsciiDigitC c || c == '-' || c == '_' || c == '.' ||
  c == '!' || c == '~' || c == '*' || c.toNat == 39 || c == '(' || c == ')'

def encodeURIComponent (s : String) : String :=
  String.mk (s.data.flatMap (fun c =>
    if isUnreservedURI c then [c]
    else (String.utf8EncodeChar c).flatMap (fun b =>
      ['%', hexUpper (b.toNat / 16), hexUpper (b.toNat % 16)])))

/-- The alerts query path sent by both scan modes (src/index.js lines 85
and 96): filtered by the target as base URL, paginated from 0 with the
fixed bound 9999. -/
def alertsPath (t : String) : String :=
  "/JSON/core/view/alerts/?baseurl=" ++ encodeURIComponent t ++ "&start=0&count=9999"

def spiderScanPath (t : String) : String :=
  "/JSON/spider/action/scan/?url=" ++ encodeURIComponent t

def ascanScanPath (t : String) : String :=
  "/JSON/ascan/action/scan/?url=" ++ encodeURIComponent t

/-! ## Monitoring registry and the recurring sweep -/

structure MonitoredSite where
  lastScan : Option String
  alerts : List Alert
deriving DecidableEq

/-- The registered-sites JS Map as an insertion-ordered association list. -/
abbrev Registry := List (String × MonitoredSite)

/-- JS `Map.set`: replace in place when the key exists, append otherwise. -/
def mapSet (reg : Registry) (k : String) (v : MonitoredSite) : Registry :=
  match reg with
  | [] => [(k, v)]
  | (k0, v0) :: rest =>
      if k0 = k then (k, v) :: rest else (k0, v0) :: mapSet rest k v

/-- JS `Map.get`. -/
def mapGet (reg : Registry) (k : String) : Option MonitoredSite :=
  match reg with
  | [] => none
  | (k0, v0) :: rest => if k0 = k then some v0 else mapGet rest k

/-- Registration of a target (src/index.js line 162): the entry is set to
no last scan and empty alerts unconditionally. -/
def register (reg : Registry) (t : String) : Registry :=
  mapSet reg t { lastScan := none, alerts := [] }

/-- One sweep cycle (src/index.js lines 147 to 157): each registered
target is scanned with its own per-cycle daemon behaviour `env`; success
overwrites the entry with the current timestamp and fresh alerts, failure
is caught per target and leaves the entry untouched. -/
def sweep (env : String → Daemon) (now : String) (reg : Registry) : Registry :=
  reg.map (fun e =>
    match performScan (env e.1) e.1 with
    | .ok r => (e.1, { lastScan := some now, alerts := r.alerts })
    | .error _ _ => e)

/-! ## Route handlers -/

/-- Response of the scan routes: a 200 with the result object, or an error
status with `error` and `detail` strings. -/
inductive ApiResponse where
  | success (status : Nat) (result : ScanResult)
  | failure (status : Nat) (error detail : String)
deriving DecidableEq

/-- POST /scan (src/index.js lines 124 to 132): normalise, scan, and map
every thrown error, validation errors included, to a 500 with the error
message as detail. -/
def scanRoute (d : Daemon) (url : String) : ApiResponse :=
  match normalizeUrl url with
  | .error m => .failure 500 "Scan failed" m
  | .ok t =>
      match performScan d t with
      | .ok r => .success 200 r
      | .error e _ => .failure 500 "Scan failed" e.message

/-- POST /quick-scan (src/index.js lines 135 to 143). -/
def quickScanRoute (d : Daemon) (url : String) : ApiResponse :=
  match normalizeUrl url with
  | .error m => .failure 500 "Quick scan failed" m
  | .ok t =>
      match performQuickScan d t with
      | .ok r => .success 200 r
      | .error e _ => .failure 500 "Quick scan failed" e.message

inductive ScheduleResponse where
  | registered (status : Nat) (url : String)
  | invalid (status : Nat) (error : String)
deriving DecidableEq

/-- POST /schedule (src/index.js lines 159 to 167): normalise and register,
or reject with a 400. -/
def scheduleRoute (reg : Registry) (url : String) : Registry × ScheduleResponse :=
  match normalizeUrl url with
  | .ok t => (register reg t, .registered 200 t)
  | .error _ => (reg, .invalid 400 "Invalid URL")

/-! ## Verification-layer definitions -/

/-- Daemon whose discovery status first reaches 100 on the second poll. -/
def twoPollDaemon : Daemon where
  spiderStart := .ok ()
  spiderStatus := fun j => .ok (if j = 0 then [("1", "50")] else [("1", "100")])
  ascanStart := .ok ()
  ascanStatus := fun _ => .ok [("1", "100")]
  contextInclude := .ok ()
  pscanAll := .ok ()
  alertsCall := .ok ⟨none⟩

/-- Daemon whose status never reaches 100 in either phase. -/
def neverDoneDaemon : Daemon where
  spiderStart := .ok ()
  spiderStatus := fun _ => .ok [("0", "50")]
  ascanStart := .ok ()
  ascanStatus := fun _ => .ok [("0", "50")]
  contextInclude := .ok ()
  pscanAll := .ok ()
  alertsCall := .ok ⟨none⟩

/-- Daemon completing discovery on the first poll while its active-probe
status never reaches 100. -/
def ascanStuckDaemon : Daemon where
  spiderStart := .ok ()
  spiderStatus := fun _ => .ok [("1", "100")]
  ascanStart := .ok ()
  ascanStatus := fun _ => .ok [("0", "50")]
  contextInclude := .ok ()
  pscanAll := .ok ()
  alertsCall := .ok ⟨none⟩

/-- Daemon completing both phases on the first poll, with an alerts
response that lacks the alerts field. -/
def quickDoneDaemon : Daemon where
  spiderStart := .ok ()
  spiderStatus := fun _ => .ok [("1", "100")]
  ascanStart := .ok ()
  ascanStatus := fun _ => .ok [("1", "100")]
  contextInclude := .ok ()
  pscanAll := .ok ()
  alertsCall := .ok ⟨none⟩

/-- Daemon whose discovery start call fails outright. -/
def failingDaemon : Daemon where
  spiderStart := .error "boom"
  spiderStatus := fun _ => .ok []
  ascanStart := .ok ()
  ascanStatus := fun _ => .ok []
  contextInclude := .ok ()
  pscanAll := .ok ()
  alertsCall := .ok ⟨none⟩

/-- The rejection predicate of the validation claim, stated from the spec:
the input either fails to parse as an absolute URL, or parses with a scheme
other than http or https. -/
def rejectedTarget (u : String) : Bool :=
  match parseURL u with
  | none => true
  | some r => !(r.scheme == "http".data || r.scheme == "https".data)

/-- Invariants every scheme produced by the parser satisfies: nonempty,
letter first, scheme characters only, already lowercase. -/
def schemeWF (s : Chars) : Prop :=
  s ≠ [] ∧ isSchemeStart (s.headD ' ') = true ∧ ∀ c ∈ s, isSchemeChar c = true ∧ c.toLower = c

/-- Invariants of a parsed host: nonempty, delimiter-free, not forbidden,
already lowercase. -/
def hostWF (h : Chars) : Prop :=
  h ≠ [] ∧ ∀ c ∈ h, hostCharOK c = true ∧ c.toLower = c

/-- Invariants of a parsed port: absent, or canonical digits differing from
the scheme default. -/
def portWF (scheme p : Chars) : Prop :=
  p = [] ∨ ((∀ c ∈ p, isAsciiDigitC c = true) ∧ canonDigits p = p ∧ p ≠ defaultPort scheme)

/-- Invariants of a parsed path: nonempty, starts with a slash, and no
backslash before the query or fragment. -/
def pathWF (path : Chars) : Prop :=
  path ≠ [] ∧ path.headD ' ' = '/' ∧
  ∀ c ∈ path.takeWhile (fun c => !(isPathEnd c)), (c == '\\') = false

/-- Well-formedness of a URL record, the key invariant for idempotence of
normalisation. -/
def urlWF (r : URLRecord) : Prop :=
  schemeWF r.scheme ∧
  match r.rest with
  | .auth h p path =>
      (r.scheme = "http".data ∨ r.scheme = "https".data) ∧
      hostWF h ∧ portWF r.scheme p ∧ pathWF path
  | .nonspecial _ => ¬(r.scheme = "http".data ∨ r.scheme = "https".data)

/-! ## Character arithmetic lemmas -/

theorem char_toNat_ofNat_valid {n : Nat} (h : n < 55296) : (Char.ofNat n).toNat = n := by
  rw [Char.ofNat, dif_pos (Or.inl h)]
  rfl

theorem toLower_toNat (c : Char) :
    c.toLower.toNat = if 65 ≤ c.toNat ∧ c.toNat ≤ 90 then c.toNat + 32 else c.toNat := by
  by_cases h : 65 ≤ c.toNat ∧ c.toNat ≤ 90
  · rw [if_pos h]
    show (if c.toNat ≥ 65 ∧ c.toNat ≤ 90 then Char.ofNat (c.toNat + 32) else c).toNat = c.toNat + 32
    rw [if_pos ⟨h.1, h.2⟩]
    exact char_toNat_ofNat_valid (by omega)
  · rw [if_neg h]
    show (if c.toNat ≥ 65 ∧ c.toNat ≤ 90 then Char.ofNat (c.toNat + 32) else c).toNat = c.toNat
    rw [if_neg (fun hc => h ⟨hc.1, hc.2⟩)]

theorem char_eq_iff_toNat {c d : Char} : c = d ↔ c.toNat = d.toNat := by
  constructor
  · intro h; rw [h]
  · intro h
    have := congrArg Char.ofNat h
    rwa [Char.ofNat_toNat, Char.ofNat_toNat] at this

theorem char_beq_eq (c d : Char) : (c == d) = decide (c.toNat = d.toNat) := by
  by_cases h : c = d
  · subst h; simp
  · have hn : c.toNat ≠ d.toNat := fun hh => h (char_eq_iff_toNat.2 hh)
    simp [h, hn]

theorem beq_colon (c : Char) : (c == ':') = decide (c.toNat = 58) := char_beq_eq c ':'
theorem beq_slash (c : Char) : (c == '/') = decide (c.toNat = 47) := char_beq_eq c '/'
theorem beq_bslash (c : Char) : (c == '\\') = decide (c.toNat = 92) := char_beq_eq c '\\'
theorem beq_quest (c : Char) : (c == '?') = decide (c.toNat = 63) := char_beq_eq c '?'
theorem beq_hash (c : Char) : (c == '#') = decide (c.toNat = 35) := char_beq_eq c '#'
theorem beq_lt (c : Char) : (c == '<') = decide (c.toNat = 60) := char_beq_eq c '<'
theorem beq_gt (c : Char) : (c == '>') = decide (c.toNat = 62) := char_beq_eq c '>'
theorem beq_at (c : Char) : (c == '@') = decide (c.toNat = 64) := char_beq_eq c '@'
theorem beq_lbr (c : Char) : (c == '[') = decide (c.toNat = 91) := char_beq_eq c '['
theorem beq_rbr (c : Char) : (c == ']') = decide (c.toNat = 93) := char_beq_eq c ']'
theorem beq_caret (c : Char) : (c == '^') = decide (c.toNat = 94) := char_beq_eq c '^'
theorem beq_pipe (c : Char) : (c == '|') = decide (c.toNat = 124) := char_beq_eq c '|'
theorem beq_pct (c : Char) : (c == '%') = decide (c.toNat = 37) := char_beq_eq c '%'
theorem beq_dq (c : Char) : (c == '"') = decide (c.toNat = 34) := char_beq_eq c '"'
theorem beq_plus (c : Char) : (c == '+') = decide (c.toNat = 43) := char_beq_eq c '+'
theorem beq_minus (c : Char) : (c == '-') = decide (c.toNat = 45) := char_beq_eq c '-'
theorem beq_dot (c : Char) : (c == '.') = decide (c.toNat = 46) := char_beq_eq c '.'
theorem beq_zero (c : Char) : (c == '0') = decide (c.toNat = 48) := char_beq_eq c '0'

theorem toLower_idem (c : Char) : c.toLower.toLower = c.toLower := by
  apply char_eq_iff_toNat.2
  have h1 := toLower_toNat c
  have h2 := toLower_toNat c.toLower
  split at h1 <;> split at h2 <;> omega

theorem toLower_eq_self {c : Char} (h : ¬(65 ≤ c.toNat ∧ c.toNat ≤ 90)) : c.toLower = c := by
  apply char_eq_iff_toNat.2
  rw [toLower_toNat, if_neg h]

theorem isSchemeStart_toLower {c : Char} (h : isSchemeStart c = true) :
    isSchemeStart c.toLower = true := by
  have ht := toLower_toNat c
  simp only [isSchemeStart, Bool.or_eq_true, Bool.and_eq_true, decide_eq_true_eq] at h ⊢
  split at ht <;> omega

theorem isSchemeChar_toLower {c : Char} (h : isSchemeChar c = true) :
    isSchemeChar c.toLower = true := by
  have ht := toLower_toNat c
  simp only [isSchemeChar, isSchemeStart, isAsciiDigitC, beq_plus, beq_minus, beq_dot,
    Bool.or_eq_true, Bool.and_eq_true, decide_eq_true_eq] at h ⊢
  split at ht <;> omega

theorem hostCharOK_toLower {c : Char} (h : hostCharOK c = true) :
    hostCharOK c.toLower = true := by
  have ht := toLower_toNat c
  simp only [hostCharOK, isHostEnd, isForbiddenHost, beq_colon, beq_slash, beq_bslash,
    beq_quest, beq_hash, beq_lt, beq_gt, beq_at, beq_lbr, beq_rbr, beq_caret, beq_pipe,
    beq_pct, beq_dq, Bool.and_eq_true, Bool.not_eq_eq_eq_not, Bool.not_true,
    Bool.or_eq_false_iff, decide_eq_false_iff_not] at h ⊢
  split at ht <;> omega

theorem isSchemeChar_ne_colon {c : Char} (h : isSchemeChar c = true) : (c == ':') = false := by
  simp only [isSchemeChar, isSchemeStart, isAsciiDigitC, beq_plus, beq_minus, beq_dot,
    beq_colon, Bool.or_eq_true, Bool.and_eq_true, decide_eq_true_eq,
    decide_eq_false_iff_not] at h ⊢
  omega

/-! ## Auxiliary list and character lemmas -/

theorem takeWhile_dropWhile_self {α : Type} (p : α → Bool) (l : List α) :
    (l.dropWhile p).takeWhile p = [] := by
  have h := List.head?_dropWhile_not p l
  cases hd : l.dropWhile p with
  | nil => rfl
  | cons x xs =>
      rw [hd] at h
      simp only [List.head?_cons] at h
      exact List.takeWhile_cons_of_neg (by simp [h])

theorem canonDigits_of_head_ne {x : Char} (xs : Chars) (h : (x == '0') = false) :
    canonDigits (x :: xs) = x :: xs := by
  have hneg : ¬((x == '0') = true) := by simp [h]
  simp only [canonDigits,
    List.dropWhile_cons_of_neg (p := fun c => c == '0') (a := x) (l := xs) hneg,
    List.isEmpty_cons, Bool.false_eq_true, if_false]

theorem canonDigits_eq (ds : Chars) :
    canonDigits ds = [] ∨ canonDigits ds = ['0'] ∨
    (∃ x xs, canonDigits ds = x :: xs ∧ (x == '0') = false) := by
  by_cases h1 : (ds.dropWhile (fun c => c == '0')).isEmpty = true
  · by_cases h2 : ds.isEmpty = true
    · left; simp only [canonDigits, if_pos h1, if_pos h2]
    · right; left; simp only [canonDigits, if_pos h1, if_neg h2]
  · right; right
    cases hd : ds.dropWhile (fun c => c == '0') with
    | nil => rw [hd] at h1; simp at h1
    | cons x xs =>
        have h := List.head?_dropWhile_not (fun c => c == '0') ds
        rw [hd] at h
        simp only [List.head?_cons] at h
        exact ⟨x, xs, by simp only [canonDigits, hd, List.isEmpty_cons,
          Bool.false_eq_true, if_false], h⟩

theorem canonDigits_idem (ds : Chars) : canonDigits (canonDigits ds) = canonDigits ds := by
  rcases canonDigits_eq ds with h | h | ⟨x, xs, h, hx⟩ <;> rw [h]
  · rfl
  · rfl
  · exact canonDigits_of_head_ne xs hx

theorem canonDigits_digits {ds : Chars} (h : ∀ c ∈ ds, isAsciiDigitC c = true) :
    ∀ c ∈ canonDigits ds, isAsciiDigitC c = true := by
  intro c hc
  simp only [canonDigits] at hc
  by_cases h1 : (ds.dropWhile (fun c => c == '0')).isEmpty = true
  · rw [if_pos h1] at hc
    by_cases h2 : ds.isEmpty = true
    · rw [if_pos h2] at hc; simp at hc
    · rw [if_neg h2] at hc
      simp only [List.mem_singleton] at hc
      subst hc; decide
  · rw [if_neg h1] at hc
    exact h c ((List.dropWhile_sublist (fun c => c == '0')).mem hc)

/-- The backslash-to-slash conversion never returns a backslash. -/
theorem fix_ne_bslash (c : Char) : ((if c == '\\' then '/' else c) == '\\') = false := by
  by_cases h : (c == '\\') = true
  · rw [if_pos h]; decide
  · rw [if_neg h]; simpa using h

theorem fix_not_pathEnd {c : Char} (h : isPathEnd c = false) :
    isPathEnd (if c == '\\' then '/' else c) = false := by
  by_cases hb : (c == '\\') = true
  · rw [if_pos hb]; decide
  · rw [if_neg hb]; exact h

/-- The path normaliser produces a well-formed path whenever its input is
empty or begins with a slash, backslash, query or fragment delimiter. -/
theorem pathWF_parsePath {r : Chars}
    (h : r = [] ∨ isSlashC (r.headD ' ') = true ∨ isPathEnd (r.headD ' ') = true) :
    pathWF (parsePath r) := by
  rcases h with h | h | h
  · subst h
    exact ⟨by decide, by decide, by decide⟩
  · cases r with
    | nil => exact absurd h (by decide)
    | cons c r' =>
        simp only [List.headD_cons] at h
        have hnp : (!(isPathEnd c)) = true := by
          simp only [isSlashC, isPathEnd, beq_slash, beq_bslash, beq_quest, beq_hash,
            Bool.or_eq_true, decide_eq_true_eq, Bool.not_eq_true',
            Bool.or_eq_false_iff, decide_eq_false_iff_not] at h ⊢
          omega
        have hfc : (if c == '\\' then '/' else c) = '/' := by
          simp only [isSlashC, beq_slash, beq_bslash, Bool.or_eq_true, decide_eq_true_eq] at h
          rcases h with h | h
          · rw [if_neg (by simp only [beq_bslash, decide_eq_true_eq]; omega)]
            exact char_eq_iff_toNat.2 (by rw [h]; rfl)
          · rw [if_pos (by simp only [beq_bslash, decide_eq_true_eq]; omega)]
        have hq := List.takeWhile_cons_of_pos (p := fun c => !(isPathEnd c))
          (a := c) (l := r') hnp
        have hd := List.dropWhile_cons_of_pos (p := fun c => !(isPathEnd c))
          (a := c) (l := r') hnp
        simp only [parsePath]
        rw [hq, hd, List.map_cons]
        simp only [hfc, List.isEmpty_cons, Bool.false_eq_true, if_false]
        refine ⟨by simp, by simp, ?_⟩
        have hall : ∀ x ∈ '/' :: (r'.takeWhile (fun c => !(isPathEnd c))).map
            (fun c => if c == '\\' then '/' else c), ((fun c => !(isPathEnd c)) x) = true := by
          intro x hx
          rcases List.mem_cons.1 hx with rfl | hx
          · decide
          · obtain ⟨y, hy, rfl⟩ := List.mem_map.1 hx
            have hty := List.mem_takeWhile_imp hy
            simp only [Bool.not_eq_true'] at hty ⊢
            exact fix_not_pathEnd hty
        rw [List.takeWhile_append_of_pos hall, takeWhile_dropWhile_self,
          List.append_nil]
        intro x hx
        rcases List.mem_cons.1 hx with rfl | hx
        · decide
        · obtain ⟨y, hy, rfl⟩ := List.mem_map.1 hx
          exact fix_ne_bslash y
  · cases r with
    | nil => exact absurd h (by decide)
    | cons c r' =>
        simp only [List.headD_cons] at h
        have hnp : ¬((!(isPathEnd c)) = true) := by simp [h]
        have hq := List.takeWhile_cons_of_neg (p := fun c => !(isPathEnd c))
          (a := c) (l := r') hnp
        have hd := List.dropWhile_cons_of_neg (p := fun c => !(isPathEnd c))
          (a := c) (l := r') hnp
        simp only [parsePath]
        rw [hq, hd, List.map_nil]
        simp only [List.isEmpty_nil, if_true]
        refine ⟨by simp, by simp, ?_⟩
        have hslash : (!(isPathEnd '/')) = true := by decide
        rw [List.singleton_append,
          List.takeWhile_cons_of_pos (p := fun c => !(isPathEnd c)) hslash,
          List.takeWhile_cons_of_neg (p := fun c => !(isPathEnd c)) hnp]
        intro x hx
        rcases List.mem_cons.1 hx with rfl | hx
        · decide
        · simp at hx

theorem dropWhile_headD_cases {α : Type} (p : α → Bool) (l : List α) (d : α) :
    l.dropWhile p = [] ∨ p ((l.dropWhile p).headD d) = false := by
  have h := List.head?_dropWhile_not p l
  cases hd : l.dropWhile p with
  | nil => exact Or.inl rfl
  | cons x xs =>
      rw [hd] at h
      simp only [List.head?_cons] at h
      right
      simpa using h

/-! ## The parser only produces well-formed records -/

theorem bool_or3 {a b c : Bool} (h : (a || b || c) = true) :
    a = true ∨ b = true ∨ c = true := by
  simp only [Bool.or_eq_true] at h
  tauto

theorem parseScheme_wf {l s rest : Chars} (h : parseScheme l = some (s, rest)) :
    schemeWF s := by
  simp only [parseScheme] at h
  split at h
  · exact absurd h (by simp)
  · split at h
    · exact absurd h (by simp)
    · rename_i c cs heq
      split at h
      · rename_i hguard
        simp only [Option.some.injEq, Prod.mk.injEq] at h
        obtain ⟨hs, hrest⟩ := h
        subst hs
        simp only [Bool.and_eq_true, List.all_eq_true] at hguard
        obtain ⟨hstart, hall⟩ := hguard
        refine ⟨by simp, ?_, ?_⟩
        · simp only [List.map_cons, List.headD_cons]
          exact isSchemeStart_toLower hstart
        · intro x hx
          obtain ⟨y, hy, rfl⟩ := List.mem_map.1 hx
          exact ⟨isSchemeChar_toLower (hall y hy), toLower_idem y⟩
      · exact absurd h (by simp)

theorem parseSpecialRest_wf {scheme l : Chars} {r : URLRest}
    (h : parseSpecialRest scheme l = some r) :
    ∃ hst p path, r = .auth hst p path ∧ hostWF hst ∧ portWF scheme p ∧ pathWF path := by
  simp only [parseSpecialRest] at h
  split at h
  · exact absurd h (by simp)
  · split at h
    · exact absurd h (by simp)
    · rename_i hne hforb
      -- host facts
      have hostwf : hostWF (((l.dropWhile isSlashC).takeWhile
          (fun c => !(isHostEnd c))).map Char.toLower) := by
        constructor
        · simp only [ne_eq, List.map_eq_nil_iff]
          exact fun hnil => hne (by rw [hnil]; rfl)
        · intro x hx
          obtain ⟨y, hy, rfl⟩ := List.mem_map.1 hx
          have hhe := List.mem_takeWhile_imp hy
          have hfb : isForbiddenHost y = false := by
            have := fun hcon => hforb (List.any_eq_true.2 ⟨y, hy, hcon⟩)
            exact Bool.not_eq_true _ ▸ (by simpa using this)
          have hok : hostCharOK y = true := by
            simp only [hostCharOK, Bool.and_eq_true, Bool.not_eq_eq_eq_not, Bool.not_true]
            exact ⟨by simpa using hhe, hfb⟩
          exact ⟨hostCharOK_toLower hok, toLower_idem y⟩
      split at h
      · -- port branch
        split at h
        · rename_i hterm
          simp only [Option.some.injEq] at h
          subst h
          refine ⟨_, _, _, rfl, hostwf, ?_, ?_⟩
          · -- portWF
            by_cases hdef : canonDigits ((((l.dropWhile isSlashC).dropWhile
                (fun c => !(isHostEnd c))).tail).takeWhile isAsciiDigitC) =
                defaultPort scheme
            · rw [if_pos hdef]
              exact Or.inl rfl
            · rw [if_neg hdef]
              refine Or.inr ⟨?_, canonDigits_idem _, hdef⟩
              exact canonDigits_digits (fun c hc => List.mem_takeWhile_imp hc)
          · -- pathWF of parsePath r3
            apply pathWF_parsePath
            rcases bool_or3 hterm with h3 | h3 | h3
            · exact Or.inl (List.isEmpty_iff.1 h3)
            · exact Or.inr (Or.inl h3)
            · exact Or.inr (Or.inr h3)
        · exact absurd h (by simp)
      · -- no-port branch
        rename_i hcol
        simp only [Option.some.injEq] at h
        subst h
        refine ⟨_, _, _, rfl, hostwf, Or.inl rfl, ?_⟩
        apply pathWF_parsePath
        rcases dropWhile_headD_cases (fun c => !(isHostEnd c))
            (l.dropWhile isSlashC) ' ' with hnil | hhd
        · exact Or.inl hnil
        · right
          have hhe : isHostEnd (((l.dropWhile isSlashC).dropWhile
              (fun c => !(isHostEnd c))).headD ' ') = true := by simpa using hhd
          have hnc : ¬((((l.dropWhile isSlashC).dropWhile
              (fun c => !(isHostEnd c))).headD ' ') = ':') := hcol
          set x := ((l.dropWhile isSlashC).dropWhile (fun c => !(isHostEnd c))).headD ' '
          simp only [isHostEnd, isSlashC, isPathEnd, beq_colon, beq_slash, beq_bslash,
            beq_quest, beq_hash, Bool.or_eq_true, decide_eq_true_eq] at hhe ⊢
          have hnc2 : x.toNat ≠ 58 := fun hn => hnc (char_eq_iff_toNat.2 (by rw [hn]; rfl))
          omega

theorem parseURLChars_wf {l : Chars} {r : URLRecord} (h : parseURLChars l = some r) :
    urlWF r := by
  cases hps : parseScheme l with
  | none =>
      simp only [parseURLChars, hps] at h
      exact absurd h (by simp)
  | some sr =>
      obtain ⟨s, rest⟩ := sr
      simp only [parseURLChars, hps] at h
      split at h
      · rename_i hsp
        cases hpr : parseSpecialRest s rest with
        | none => rw [hpr] at h; exact absurd h (by simp)
        | some rr =>
            rw [hpr] at h
            simp only [Option.some.injEq] at h
            subst h
            obtain ⟨hst, p, path, rfl, hh, hp, hpath⟩ := parseSpecialRest_wf hpr
            exact ⟨parseScheme_wf hps, hsp, hh, hp, hpath⟩
      · rename_i hsp
        simp only [Option.some.injEq] at h
        subst h
        exact ⟨parseScheme_wf hps, hsp⟩

/-! ## Reparsing a well-formed serialisation returns the same record -/

theorem hostCharOK_split {c : Char} (h : hostCharOK c = true) :
    isHostEnd c = false ∧ isForbiddenHost c = false := by
  simp only [hostCharOK, Bool.and_eq_true, Bool.not_eq_eq_eq_not, Bool.not_true] at h
  exact h

theorem hostCharOK_not_slash {c : Char} (h : hostCharOK c = true) : isSlashC c = false := by
  have he := (hostCharOK_split h).1
  simp only [isHostEnd, isSlashC, beq_colon, beq_slash, beq_bslash, beq_quest, beq_hash,
    Bool.or_eq_false_iff, decide_eq_false_iff_not] at he ⊢
  omega

theorem pathWF_cons {path : Chars} (h : pathWF path) : ∃ t, path = '/' :: t := by
  obtain ⟨hne, hhd, _⟩ := h
  cases path with
  | nil => exact absurd rfl hne
  | cons c t =>
      simp only [List.headD_cons] at hhd
      exact ⟨t, by rw [hhd]⟩

theorem map_toLower_id {l : Chars} (h : ∀ c ∈ l, c.toLower = c) :
    l.map Char.toLower = l := by
  have h2 : ∀ c ∈ l, Char.toLower c = id c := fun c hc => h c hc
  rw [List.map_congr_left h2, List.map_id]

theorem parsePath_of_pathWF {path : Chars} (h : pathWF path) : parsePath path = path := by
  obtain ⟨t, rfl⟩ := pathWF_cons h
  obtain ⟨hne, hhd, hbs⟩ := h
  have hslash : (!(isPathEnd '/')) = true := by decide
  have hmap : ∀ c ∈ ('/' :: t).takeWhile (fun c => !(isPathEnd c)),
      (fun c => if c == '\\' then '/' else c) c = id c := by
    intro c hc
    have := hbs c hc
    simp only [id]
    rw [if_neg (by simp [this])]
  have hq : (('/' :: t).takeWhile (fun c => !(isPathEnd c))).isEmpty = false := by
    rw [List.takeWhile_cons_of_pos (p := fun c => !(isPathEnd c)) hslash]
    exact List.isEmpty_cons
  simp only [parsePath]
  rw [List.map_congr_left hmap, List.map_id, hq]
  simp only [Bool.false_eq_true, if_false]
  exact List.takeWhile_append_dropWhile _ _

theorem parseScheme_roundtrip {s rest : Chars} (wf : schemeWF s) :
    parseScheme (s ++ ':' :: rest) = some (s, rest) := by
  obtain ⟨hne, hstart, hall⟩ := wf
  have hpre : ∀ c ∈ s, ((fun c => !(c == ':')) c) = true := by
    intro c hc
    simp only [Bool.not_eq_eq_eq_not, Bool.not_true]
    exact isSchemeChar_ne_colon (hall c hc).1
  have hcol : ¬((fun c => !(c == ':')) ':' = true) := by decide
  have ht : (s ++ ':' :: rest).takeWhile (fun c => !(c == ':')) = s := by
    rw [List.takeWhile_append_of_pos hpre,
      List.takeWhile_cons_of_neg (p := fun c => !(c == ':')) hcol, List.append_nil]
  have hd : (s ++ ':' :: rest).dropWhile (fun c => !(c == ':')) = ':' :: rest := by
    rw [List.dropWhile_append_of_pos hpre,
      List.dropWhile_cons_of_neg (p := fun c => !(c == ':')) hcol]
  cases s with
  | nil => exact absurd rfl hne
  | cons c cs =>
      simp only [parseScheme, ht, hd, List.isEmpty_cons, Bool.false_eq_true, if_false]
      rw [if_pos (by
        simp only [Bool.and_eq_true, List.all_eq_true]
        exact ⟨by simpa using hstart, fun x hx => (hall x hx).1⟩)]
      simp only [List.tail_cons, Option.some.injEq, Prod.mk.injEq]
      exact ⟨map_toLower_id (fun x hx => (hall x hx).2), trivial⟩

theorem parseSpecialRest_roundtrip {scheme h p path : Chars}
    (hh : hostWF h) (hp : portWF scheme p) (hpath : pathWF path) :
    parseSpecialRest scheme
        ('/' :: '/' :: (h ++ (if p.isEmpty then [] else ':' :: p) ++ path)) =
      some (.auth h p path) := by
  obtain ⟨hhne, hhok⟩ := hh
  have hpred : ∀ c ∈ h, ((fun c => !(isHostEnd c)) c) = true := by
    intro c hc
    simp only [Bool.not_eq_eq_eq_not, Bool.not_true]
    exact (hostCharOK_split (hhok c hc).1).1
  obtain ⟨t, rfl⟩ := pathWF_cons hpath
  have hslashneg : ¬((fun c => !(isHostEnd c)) '/' = true) := by decide
  have hcolneg : ¬((fun c => !(isHostEnd c)) ':' = true) := by decide
  have hslashpos : isSlashC '/' = true := by decide
  -- the remainder after the two authority slashes
  have hl1 : ('/' :: '/' :: (h ++ (if p.isEmpty then [] else ':' :: p) ++ '/' :: t)).dropWhile
      isSlashC = h ++ (if p.isEmpty then [] else ':' :: p) ++ '/' :: t := by
    rw [List.dropWhile_cons_of_pos hslashpos, List.dropWhile_cons_of_pos hslashpos]
    cases h with
    | nil => exact absurd rfl hhne
    | cons c0 h' =>
        have hc0 : ¬(isSlashC c0 = true) := by
          rw [hostCharOK_not_slash (hhok c0 (List.mem_cons_self c0 h')).1]
          simp
        rw [List.cons_append, List.cons_append, List.dropWhile_cons_of_neg hc0]
  have htail0 : ((if p.isEmpty then [] else ':' :: p) ++ '/' :: t).takeWhile
      (fun c => !(isHostEnd c)) = [] := by
    by_cases hpe : p.isEmpty = true
    · rw [if_pos hpe, List.nil_append,
        List.takeWhile_cons_of_neg (p := fun c => !(isHostEnd c)) hslashneg]
    · rw [if_neg hpe, List.cons_append,
        List.takeWhile_cons_of_neg (p := fun c => !(isHostEnd c)) hcolneg]
  have hhost : (h ++ (if p.isEmpty then [] else ':' :: p) ++ '/' :: t).takeWhile
      (fun c => !(isHostEnd c)) = h := by
    rw [List.append_assoc, List.takeWhile_append_of_pos hpred, htail0, List.append_nil]
  have hdrop : (h ++ (if p.isEmpty then [] else ':' :: p) ++ '/' :: t).dropWhile
      (fun c => !(isHostEnd c)) = (if p.isEmpty then [] else ':' :: p) ++ '/' :: t := by
    rw [List.append_assoc, List.dropWhile_append_of_pos hpred]
    by_cases hpe : p.isEmpty = true
    · rw [if_pos hpe, List.nil_append,
        List.dropWhile_cons_of_neg (p := fun c => !(isHostEnd c)) hslashneg]
    · rw [if_neg hpe, List.cons_append,
        List.dropWhile_cons_of_neg (p := fun c => !(isHostEnd c)) hcolneg]
  have hforb : (h.any isForbiddenHost) = false := by
    rw [List.any_eq_false]
    intro x hx
    rw [(hostCharOK_split (hhok x hx).1).2]
    simp
  have hmap : h.map Char.toLower = h := map_toLower_id (fun c hc => (hhok c hc).2)
  simp only [parseSpecialRest, hl1, hhost, hdrop]
  rw [if_neg (fun hcon => hhne (List.isEmpty_iff.1 hcon))]
  rw [if_neg (by rw [hforb]; simp)]
  by_cases hpe : p.isEmpty = true
  · -- empty port component: the serialisation carries no colon
    obtain rfl := List.isEmpty_iff.1 hpe
    simp only [List.isEmpty_nil, if_true, List.nil_append]
    rw [if_neg (by
      simp only [List.headD_cons]
      intro hcon
      exact absurd (char_eq_iff_toNat.1 hcon) (by decide))]
    rw [hmap, parsePath_of_pathWF hpath]
  · -- nonempty canonical port
    rcases hp with rfl | ⟨hpd, hpc, hpne⟩
    · exact (hpe rfl).elim
    · rw [if_neg hpe, List.cons_append]
      simp only [List.headD_cons, List.tail_cons, if_true]
      have htake : (p ++ '/' :: t).takeWhile isAsciiDigitC = p := by
        rw [List.takeWhile_append_of_pos hpd,
          List.takeWhile_cons_of_neg (p := isAsciiDigitC) (by decide), List.append_nil]
      have hdrop2 : (p ++ '/' :: t).dropWhile isAsciiDigitC = '/' :: t := by
        rw [List.dropWhile_append_of_pos hpd,
          List.dropWhile_cons_of_neg (p := isAsciiDigitC) (by decide)]
      rw [htake, hdrop2]
      rw [if_pos (by simp [List.headD_cons, isSlashC])]
      rw [hpc, if_neg hpne, hmap, parsePath_of_pathWF hpath]

/-! ## Protocol strings versus schemes -/

theorem mk_eq_lit_iff {l : List Char} {s : String} : String.mk l = s ↔ l = s.data :=
  ⟨fun h => congrArg String.data h, fun h => String.ext h⟩

theorem protocol_http (r : URLRecord) :
    (r.protocol = "http:" ∨ r.protocol = "https:") ↔
      (r.scheme = "http".data ∨ r.scheme = "https".data) := by
  unfold URLRecord.protocol
  constructor
  · rintro (h | h)
    · left
      have h1 : r.scheme ++ [':'] = "http".data ++ [':'] := mk_eq_lit_iff.1 h
      exact List.append_cancel_right h1
    · right
      have h1 : r.scheme ++ [':'] = "https".data ++ [':'] := mk_eq_lit_iff.1 h
      exact List.append_cancel_right h1
  · rintro (h | h)
    · left
      rw [h]
      exact String.ext rfl
    · right
      rw [h]
      exact String.ext rfl

/-! ## Round trip at the record level -/

theorem parseURLChars_roundtrip {r : URLRecord} (wf : urlWF r) :
    parseURLChars (hrefChars r) = some r := by
  obtain ⟨scheme, rest⟩ := r
  obtain ⟨hs, hrest⟩ := wf
  cases rest with
  | auth h p path =>
      obtain ⟨hsp, hh, hp, hpath⟩ := hrest
      show parseURLChars (scheme ++ ':' :: '/' :: '/' ::
        (h ++ (if p.isEmpty then [] else ':' :: p) ++ path)) = _
      simp only [parseURLChars, parseScheme_roundtrip hs]
      split
      · rw [parseSpecialRest_roundtrip hh hp hpath]
      · rename_i hns
        exact absurd hsp hns
  | nonspecial p =>
      show parseURLChars (scheme ++ ':' :: p) = _
      simp only [parseURLChars, parseScheme_roundtrip hs]
      split
      · rename_i hsp
        exact absurd hsp hrest
      · rfl

theorem parseURL_href {r : URLRecord} (wf : urlWF r) : parseURL r.href = some r :=
  parseURLChars_roundtrip wf

/-- C7: normalisation is idempotent on every accepted input: a second
normalisation of the returned string succeeds and returns it unchanged. -/
theorem normalizeUrl_idempotent (u t : String) (h : normalizeUrl u = .ok t) :
    normalizeUrl t = .ok t := by
  unfold normalizeUrl at h
  cases hp : parseURL u with
  | none =>
      simp only [hp] at h
      exact absurd h (by simp)
  | some r =>
      simp only [hp] at h
      split at h
      · rename_i hproto
        simp only [Except.ok.injEq] at h
        subst h
        have wf := parseURLChars_wf hp
        simp only [normalizeUrl, parseURL_href wf]
        rw [if_pos hproto]
      · exact absurd h (by simp)

/-- C7 witness: a concrete run of the idempotence theorem. -/
theorem normalizeUrl_idempotent_witness :
    normalizeUrl "http://Example.COM/Path" = .ok "http://example.com/Path" ∧
    normalizeUrl "http://example.com/Path" = .ok "http://example.com/Path" :=
  ⟨rfl, normalizeUrl_idempotent "http://Example.COM/Path" _ rfl⟩

/-- C6: every input that fails to parse as an absolute URL, or parses with
a scheme other than http or https, is rejected by normalizeUrl with the
"Invalid URL" error; the scan route response is then independent of the
daemon and the schedule route leaves the registry unchanged, so the request
triggers no daemon interaction. -/
theorem invalid_target_rejected (u : String) (h : rejectedTarget u = true) :
    normalizeUrl u = .error "Invalid URL" ∧
    (∀ d d' : Daemon, scanRoute d u = scanRoute d' u) ∧
    (∀ reg : Registry, (scheduleRoute reg u).1 = reg) := by
  have herr : normalizeUrl u = .error "Invalid URL" := by
    unfold rejectedTarget at h
    unfold normalizeUrl
    cases hp : parseURL u with
    | none => rfl
    | some r =>
        simp only [hp] at h ⊢
        rw [if_neg]
        intro hcon
        rcases (protocol_http r).1 hcon with h1 | h1 <;> simp [h1] at h
  refine ⟨herr, fun d d' => ?_, fun reg => ?_⟩
  · unfold scanRoute
    rw [herr]
  · unfold scheduleRoute
    rw [herr]

/-- C6 witness: the rejection theorem applied to the sample inputs. -/
theorem invalid_target_rejected_witness :
    (rejectedTarget "ftp://x" = true ∧
      normalizeUrl "ftp://x" = .error "Invalid URL") ∧
    (rejectedTarget "javascript:alert(1)" = true ∧
      normalizeUrl "javascript:alert(1)" = .error "Invalid URL") ∧
    (rejectedTarget "not a url" = true ∧
      normalizeUrl "not a url" = .error "Invalid URL") ∧
    (rejectedTarget "" = true ∧ normalizeUrl "" = .error "Invalid URL") :=
  ⟨⟨by decide, (invalid_target_rejected "ftp://x" (by decide)).1⟩,
   ⟨by decide, (invalid_target_rejected "javascript:alert(1)" (by decide)).1⟩,
   ⟨by decide, (invalid_target_rejected "not a url" (by decide)).1⟩,
   ⟨by decide, (invalid_target_rejected "" (by decide)).1⟩⟩

/-! ## Stepping lemmas for the polling loop -/

theorem pollPhase_timeout_now {status : Nat → Except String StatusMap}
    {poll elapsed : Nat} (h : MAX_SCAN_TIME_MS < elapsed) :
    pollPhase status poll elapsed = .timedOut elapsed := by
  unfold pollPhase
  rw [dif_pos h]

theorem pollPhase_step_ok {status : Nat → Except String StatusMap}
    {poll elapsed : Nat} {st : StatusMap}
    (h : ¬ MAX_SCAN_TIME_MS < elapsed) (hst : status poll = .ok st) :
    pollPhase status poll elapsed =
      (if percComplete st then
        PollOutcome.completed (poll + 1) (elapsed + POLL_INTERVAL_MS)
      else pollPhase status (poll + 1) (elapsed + POLL_INTERVAL_MS)) := by
  conv_lhs => rw [pollPhase]
  rw [dif_neg h, hst]

theorem pollPhase_step_err {status : Nat → Except String StatusMap}
    {poll elapsed : Nat} {m : String}
    (h : ¬ MAX_SCAN_TIME_MS < elapsed) (hst : status poll = .error m) :
    pollPhase status poll elapsed = .failed m (elapsed + POLL_INTERVAL_MS) := by
  unfold pollPhase
  rw [dif_neg h, hst]

/-- If the status first reaches 100 on poll number k (zero-based) and the
budget is still open, the loop completes after exactly k+1 polls, at
elapsed time (k+1) poll intervals. -/
theorem pollPhase_completes (status : Nat → Except String StatusMap)
    (sts : Nat → StatusMap) (k : Nat)
    (hok : ∀ j, j ≤ k → status j = .ok (sts j))
    (hk : percComplete (sts k) = true)
    (hbefore : ∀ j, j < k → percComplete (sts j) = false)
    (hbudget : k * POLL_INTERVAL_MS ≤ MAX_SCAN_TIME_MS) :
    pollPhase status 0 0 = .completed (k + 1) ((k + 1) * POLL_INTERVAL_MS) := by
  suffices h : ∀ d i, i + d = k → pollPhase status i (i * POLL_INTERVAL_MS) =
      .completed (k + 1) ((k + 1) * POLL_INTERVAL_MS) by
    have h0 := h k 0 (by omega)
    simpa using h0
  intro d
  induction d with
  | zero =>
      intro i hi
      have hik : i = k := by omega
      subst hik
      have hle : ¬ MAX_SCAN_TIME_MS < i * POLL_INTERVAL_MS := by omega
      rw [pollPhase_step_ok hle (hok i le_rfl), if_pos hk]
      have harith : i * POLL_INTERVAL_MS + POLL_INTERVAL_MS =
          (i + 1) * POLL_INTERVAL_MS := by ring
      rw [harith]
  | succ d ih =>
      intro i hi
      have hik : i < k := by omega
      have hle : ¬ MAX_SCAN_TIME_MS < i * POLL_INTERVAL_MS := by
        have hmono : i * POLL_INTERVAL_MS ≤ k * POLL_INTERVAL_MS :=
          Nat.mul_le_mul_right _ (by omega)
        omega
      rw [pollPhase_step_ok hle (hok i (by omega)),
        if_neg (by simp [hbefore i hik])]
      have harei : (i + 1) * POLL_INTERVAL_MS =
          i * POLL_INTERVAL_MS + POLL_INTERVAL_MS := by ring
      rw [← harei]
      exact ih (i + 1) (by omega)

/-- If the status never completes, the loop can only end in a timeout, in
the window (budget, budget + one poll interval]. -/
theorem pollPhase_times_out (status : Nat → Except String StatusMap)
    (sts : Nat → StatusMap)
    (hok : ∀ j, status j = .ok (sts j))
    (hnc : ∀ j, percComplete (sts j) = false) :
    ∀ fuel i e, MAX_SCAN_TIME_MS + POLL_INTERVAL_MS + 1 - e ≤ fuel →
      e ≤ MAX_SCAN_TIME_MS + POLL_INTERVAL_MS →
      ∃ f, pollPhase status i e = .timedOut f ∧
        MAX_SCAN_TIME_MS < f ∧ f ≤ MAX_SCAN_TIME_MS + POLL_INTERVAL_MS := by
  have hp1 : 1 ≤ POLL_INTERVAL_MS := by decide
  intro fuel
  induction fuel with
  | zero =>
      intro i e h1 h2
      omega
  | succ n ih =>
      intro i e h1 h2
      by_cases ht : MAX_SCAN_TIME_MS < e
      · exact ⟨e, pollPhase_timeout_now ht, ht, h2⟩
      · rw [pollPhase_step_ok ht (hok i), if_neg (by simp [hnc i])]
        exact ih (i + 1) (e + POLL_INTERVAL_MS) (by omega) (by omega)

/-- A completed polling loop always ends within one poll interval past the
budget, wherever it started. -/
theorem pollPhase_completed_le (status : Nat → Except String StatusMap) :
    ∀ fuel i e n f, MAX_SCAN_TIME_MS + 1 - e ≤ fuel →
      pollPhase status i e = .completed n f →
      f ≤ MAX_SCAN_TIME_MS + POLL_INTERVAL_MS := by
  have hp1 : 1 ≤ POLL_INTERVAL_MS := by decide
  intro fuel
  induction fuel with
  | zero =>
      intro i e n f h1 hc
      have ht : MAX_SCAN_TIME_MS < e := by omega
      rw [pollPhase_timeout_now ht] at hc
      exact absurd hc (by simp)
  | succ m ih =>
      intro i e n f h1 hc
      by_cases ht : MAX_SCAN_TIME_MS < e
      · rw [pollPhase_timeout_now ht] at hc
        exact absurd hc (by simp)
      · cases hst : status i with
        | error msg =>
            rw [pollPhase_step_err ht hst] at hc
            exact absurd hc (by simp)
        | ok st =>
            rw [pollPhase_step_ok ht hst] at hc
            by_cases hcomp : percComplete st = true
            · rw [if_pos hcomp] at hc
              have : f = e + POLL_INTERVAL_MS := by
                injection hc with h1 h2
                omega
              omega
            · rw [if_neg hcomp] at hc
              exact ih (i + 1) (e + POLL_INTERVAL_MS) n f (by omega) hc

/-- C1: a polling phase is complete exactly when the maximum reported
percentage reaches 100, with one fixed-interval wait before every status
query: if the status first satisfies the completion test on poll k
(zero-based) while the budget is open, the discovery loop of the
orchestrator ends as completed after exactly k+1 polls and k+1 poll
intervals of elapsed time — not more, not fewer.  At k = 1 this is the
two-poll scenario of the claim. -/
theorem discovery_completes_exactly (d : Daemon) (sts : Nat → StatusMap) (k : Nat)
    (hok : ∀ j, j ≤ k → d.spiderStatus j = .ok (sts j))
    (hk : percComplete (sts k) = true)
    (hbefore : ∀ j, j < k → percComplete (sts j) = false)
    (hbudget : k * POLL_INTERVAL_MS ≤ MAX_SCAN_TIME_MS) :
    pollPhase d.spiderStatus 0 0 = .completed (k + 1) ((k + 1) * POLL_INTERVAL_MS) :=
  pollPhase_completes _ sts k hok hk hbefore hbudget

/-- C1 witness: a daemon first reporting 100 on the second poll completes
discovery after exactly two poll intervals. -/
theorem discovery_completes_exactly_witness :
    pollPhase twoPollDaemon.spiderStatus 0 0 =
      .completed 2 (2 * POLL_INTERVAL_MS) :=
  discovery_completes_exactly twoPollDaemon
    (fun j => if j = 0 then [("1", "50")] else [("1", "100")]) 1
    (fun j _ => rfl) (by decide)
    (fun j hj => by
      have hj0 : j = 0 := by omega
      subst hj0
      decide)
    (by decide)

/-- C2: with both loops measuring elapsed time from the original scan
start, a phase whose status never reaches 100 ends the scan with the
timeout error naming that phase, thrown no earlier than the budget and no
later than the budget plus one poll interval — including the active-probe
phase, whose loop starts at the discovery completion time and still obeys
the same absolute window because the budget is not reset. -/
theorem scan_timeout_window (d : Daemon) (t : String)
    (hstart : d.spiderStart = .ok ()) :
    ((∀ ssts : Nat → StatusMap, (∀ j, d.spiderStatus j = .ok (ssts j)) →
        (∀ j, percComplete (ssts j) = false) →
        ∃ f, performScan d t = .error .timeoutSpider f ∧
          MAX_SCAN_TIME_MS < f ∧ f ≤ MAX_SCAN_TIME_MS + POLL_INTERVAL_MS)) ∧
    (d.ascanStart = .ok () →
      ∀ asts : Nat → StatusMap, (∀ j, d.ascanStatus j = .ok (asts j)) →
        (∀ j, percComplete (asts j) = false) →
        ∀ n e1, pollPhase d.spiderStatus 0 0 = .completed n e1 →
        ∃ f, performScan d t = .error .timeoutAscan f ∧
          MAX_SCAN_TIME_MS < f ∧ f ≤ MAX_SCAN_TIME_MS + POLL_INTERVAL_MS) := by
  constructor
  · intro ssts hok hnc
    obtain ⟨f, hf, h1, h2⟩ := pollPhase_times_out d.spiderStatus ssts hok hnc
      (MAX_SCAN_TIME_MS + POLL_INTERVAL_MS + 1) 0 0 (by omega) (by omega)
    refine ⟨f, ?_, h1, h2⟩
    simp only [performScan, hstart, hf]
  · intro has asts hok hnc n e1 hsp
    have he1 : e1 ≤ MAX_SCAN_TIME_MS + POLL_INTERVAL_MS :=
      pollPhase_completed_le d.spiderStatus (MAX_SCAN_TIME_MS + 1) 0 0 n e1
        (by omega) hsp
    obtain ⟨f, hf, h1, h2⟩ := pollPhase_times_out d.ascanStatus asts hok hnc
      (MAX_SCAN_TIME_MS + POLL_INTERVAL_MS + 1) 0 e1 (by omega) he1
    refine ⟨f, ?_, h1, h2⟩
    simp only [performScan, hstart, hsp, has, hf]

/-- C2 witness: a daemon that never reports completion times out the scan
inside the claimed window, in the discovery phase and, for a daemon stuck
only in active probing, in the active-probe phase measured from the
original start. -/
theorem scan_timeout_window_witness :
    (∃ f, performScan neverDoneDaemon "http://x/" = .error .timeoutSpider f ∧
      MAX_SCAN_TIME_MS < f ∧ f ≤ MAX_SCAN_TIME_MS + POLL_INTERVAL_MS) ∧
    (∃ f, performScan ascanStuckDaemon "http://x/" = .error .timeoutAscan f ∧
      MAX_SCAN_TIME_MS < f ∧ f ≤ MAX_SCAN_TIME_MS + POLL_INTERVAL_MS) := by
  constructor
  · exact (scan_timeout_window neverDoneDaemon "http://x/" rfl).1
      (fun _ => [("0", "50")]) (fun _ => rfl)
      (fun _ => (by decide : percComplete [("0", "50")] = false))
  · have hsp : pollPhase ascanStuckDaemon.spiderStatus 0 0 =
        .completed 1 (0 + POLL_INTERVAL_MS) := by
      rw [pollPhase_step_ok (by decide) rfl, if_pos (by decide)]
    exact (scan_timeout_window ascanStuckDaemon "http://x/" rfl).2 rfl
      (fun _ => [("0", "50")]) (fun _ => rfl)
      (fun _ => (by decide : percComplete [("0", "50")] = false))
      1 (0 + POLL_INTERVAL_MS) hsp

/-! ## Degenerate status responses -/

theorem foldl_jsMax2_nan (l : List JsNum) : l.foldl jsMax2 .nan = .nan := by
  induction l with
  | nil => rfl
  | cons x xs ih =>
      rw [List.foldl_cons]
      cases x <;> exact ih

theorem statusMax_all_nan {st : StatusMap} (hne : st ≠ [])
    (h : ∀ kv ∈ st, jsParseInt kv.2 = none) : statusMax st = .nan := by
  unfold statusMax
  cases st with
  | nil => exact absurd rfl hne
  | cons kv rest =>
      simp only [List.map_cons, List.foldl_cons]
      have h1 : (match jsParseInt kv.2 with
          | none => JsNum.nan
          | some n => JsNum.val n) = JsNum.nan := by
        rw [h kv (List.mem_cons_self _ _)]
      rw [h1]
      exact foldl_jsMax2_nan _

/-- C10: an empty status mapping evaluates to negative infinity and a
nonempty mapping whose values all fail to parse evaluates to NaN; neither
satisfies the 100-percent completion test, and no parse error is raised,
so a daemon answering only such statuses drives the loop into the timeout
exit, never into completion. -/
theorem degenerate_status_only_times_out (status : Nat → Except String StatusMap)
    (sts : Nat → StatusMap)
    (hok : ∀ j, status j = .ok (sts j))
    (hdeg : ∀ j, sts j = [] ∨ ∀ kv ∈ sts j, jsParseInt kv.2 = none) :
    (∀ j, statusMax (sts j) = .negInf ∨ statusMax (sts j) = .nan) ∧
    (∀ j, percComplete (sts j) = false) ∧
    (∃ f, pollPhase status 0 0 = .timedOut f ∧
      MAX_SCAN_TIME_MS < f ∧ f ≤ MAX_SCAN_TIME_MS + POLL_INTERVAL_MS) := by
  have hmax : ∀ j, statusMax (sts j) = .negInf ∨ statusMax (sts j) = .nan := by
    intro j
    rcases hdeg j with h | h
    · left
      rw [h]
      rfl
    · cases hst : sts j with
      | nil =>
          left
          rfl
      | cons kv rest =>
          right
          exact statusMax_all_nan (by simp) (hst ▸ h)
  have hpc : ∀ j, percComplete (sts j) = false := by
    intro j
    unfold percComplete
    rcases hmax j with h | h <;> rw [h] <;> rfl
  exact ⟨hmax, hpc,
    pollPhase_times_out status sts hok hpc
      (MAX_SCAN_TIME_MS + POLL_INTERVAL_MS + 1) 0 0 (by omega) (by omega)⟩

/-- C10 witness: a status of unparsable strings never completes and the
loop times out. -/
theorem degenerate_status_only_times_out_witness :
    percComplete [("scan0", "started"), ("scan1", "n/a")] = false ∧
    (∃ f, pollPhase (fun _ => .ok [("scan0", "started"), ("scan1", "n/a")]) 0 0 =
        .timedOut f ∧
      MAX_SCAN_TIME_MS < f ∧ f ≤ MAX_SCAN_TIME_MS + POLL_INTERVAL_MS) := by
  have h := degenerate_status_only_times_out
    (fun _ => .ok [("scan0", "started"), ("scan1", "n/a")])
    (fun _ => [("scan0", "started"), ("scan1", "n/a")])
    (fun _ => rfl)
    (fun _ => Or.inr (by decide :
      ∀ kv ∈ [("scan0", "started"), ("scan1", "n/a")], jsParseInt kv.2 = none))
  exact ⟨h.2.1 0, h.2.2⟩

/-- C3: in a sweep over any registry split as pre ++ failing :: post, a
target whose scan fails keeps its MonitoredSite entry exactly as it was,
in place, while every entry before and after it is still processed by the
same sweep. -/
theorem sweep_failure_isolated (env : String → Daemon) (now : String)
    (pre post : Registry) (url : String) (info : MonitoredSite)
    (e : ZapError) (m : Nat)
    (hfail : performScan (env url) url = .error e m) :
    sweep env now (pre ++ (url, info) :: post) =
      sweep env now pre ++ (url, info) :: sweep env now post := by
  simp only [sweep, List.map_append, List.map_cons, hfail]

/-- C3 witness: a daemon failing at discovery start leaves the middle
entry untouched with both neighbours still swept. -/
theorem sweep_failure_isolated_witness :
    performScan failingDaemon "http://bad.example/" = .error (.remote "boom") 0 ∧
    sweep (fun _ => failingDaemon) "t2"
        ([("http://a/", ⟨some "t0", ["x"]⟩)] ++
          ("http://bad.example/", ⟨some "t1", ["y"]⟩) :: [("http://b/", ⟨none, []⟩)]) =
      sweep (fun _ => failingDaemon) "t2" [("http://a/", ⟨some "t0", ["x"]⟩)] ++
        ("http://bad.example/", ⟨some "t1", ["y"]⟩) ::
          sweep (fun _ => failingDaemon) "t2" [("http://b/", ⟨none, []⟩)] :=
  ⟨rfl, sweep_failure_isolated (fun _ => failingDaemon) "t2"
    [("http://a/", ⟨some "t0", ["x"]⟩)] [("http://b/", ⟨none, []⟩)]
    "http://bad.example/" ⟨some "t1", ["y"]⟩ (.remote "boom") 0 rfl⟩

/-- C4: registering a target maps it to the fresh MonitoredSite with no
last scan and no alerts, whatever was stored for it before, and leaves
every other key unchanged. -/
theorem register_resets (reg : Registry) (t u : String) (hne : u ≠ t) :
    mapGet (register reg t) t = some ⟨none, []⟩ ∧
    mapGet (register reg t) u = mapGet reg u := by
  unfold register
  induction reg with
  | nil =>
      constructor
      · simp [mapSet, mapGet]
      · simp [mapSet, mapGet, Ne.symm hne]
  | cons kv rest ih =>
      obtain ⟨k0, v0⟩ := kv
      by_cases hk : k0 = t
      · subst hk
        have hn : ¬ k0 = u := fun h => hne h.symm
        constructor
        · simp [mapSet, mapGet]
        · simp [mapSet, mapGet, hn]
      · constructor
        · simp only [mapSet, mapGet, if_neg hk]
          exact ih.1
        · by_cases hu : k0 = u
          · subst hu
            simp [mapSet, mapGet, hk]
          · simp only [mapSet, mapGet, if_neg hk, if_neg hu]
            exact ih.2

/-- C4 witness: a second registration discards the recorded history. -/
theorem register_resets_witness :
    mapGet (register [("http://a/", ⟨some "t0", ["alert1"]⟩)] "http://a/")
        "http://a/" = some ⟨none, []⟩ ∧
    mapGet (register [("http://a/", ⟨some "t0", ["alert1"]⟩)] "http://a/")
        "http://b/" =
      mapGet [("http://a/", ⟨some "t0", ["alert1"]⟩)] "http://b/" :=
  register_resets [("http://a/", ⟨some "t0", ["alert1"]⟩)] "http://a/"
    "http://b/" (by decide)

/-! ## The alerts query -/

theorem performScan_ok_alerts {d : Daemon} {t : String} {r : ScanResult}
    (h : performScan d t = .ok r) :
    ∃ resp, d.alertsCall = .ok resp ∧ r.alerts = resp.alerts.getD [] := by
  unfold performScan at h
  split at h
  · exact absurd h (by simp)
  · split at h
    · exact absurd h (by simp)
    · exact absurd h (by simp)
    · split at h
      · exact absurd h (by simp)
      · split at h
        · exact absurd h (by simp)
        · exact absurd h (by simp)
        · split at h
          · exact absurd h (by simp)
          · rename_i resp hresp
            refine ⟨resp, hresp, ?_⟩
            injection h with h2
            rw [← h2]

theorem performQuickScan_ok_alerts {d : Daemon} {t : String} {r : ScanResult}
    (h : performQuickScan d t = .ok r) :
    ∃ resp, d.alertsCall = .ok resp ∧ r.alerts = resp.alerts.getD [] := by
  unfold performQuickScan at h
  split at h
  · exact absurd h (by simp)
  · split at h
    · exact absurd h (by simp)
    · split at h
      · exact absurd h (by simp)
      · rename_i resp hresp
        refine ⟨resp, hresp, ?_⟩
        injection h with h2
        rw [← h2]

/-- C5: the alerts query path of both scan modes carries the fixed bound
count=9999 (and start=0) after the baseurl filter, and when the daemon
response has no alerts field a completed scan carries the empty alert
sequence instead of failing. -/
theorem alerts_collection_bounded (d : Daemon) (t : String) :
    (∃ q, alertsPath t = q ++ "&start=0&count=9999") ∧
    (d.alertsCall = .ok ⟨none⟩ →
      (∀ r, performScan d t = .ok r → r.alerts = []) ∧
      (∀ r, performQuickScan d t = .ok r → r.alerts = [])) := by
  refine ⟨⟨"/JSON/core/view/alerts/?baseurl=" ++ encodeURIComponent t, rfl⟩,
    fun hal => ⟨?_, ?_⟩⟩
  · intro r hr
    obtain ⟨resp, hresp, halerts⟩ := performScan_ok_alerts hr
    rw [hal] at hresp
    injection hresp with h2
    rw [halerts, ← h2]
    rfl
  · intro r hr
    obtain ⟨resp, hresp, halerts⟩ := performQuickScan_ok_alerts hr
    rw [hal] at hresp
    injection hresp with h2
    rw [halerts, ← h2]
    rfl

/-- C5 witness: a daemon whose alerts response lacks the field yields a
scan result with an empty alert sequence. -/
theorem alerts_collection_bounded_witness :
    performScan quickDoneDaemon "http://x/" =
      .ok ⟨"http://x/", none, [], 6000⟩ ∧
    (⟨"http://x/", none, [], 6000⟩ : ScanResult).alerts = [] := by
  have h1 : pollPhase (fun _ => (.ok [("1", "100")] : Except String StatusMap)) 0 0 =
      .completed 1 (0 + POLL_INTERVAL_MS) := by
    rw [pollPhase_step_ok (by decide) rfl, if_pos (by decide)]
  have h2 : pollPhase (fun _ => (.ok [("1", "100")] : Except String StatusMap)) 0
      (0 + POLL_INTERVAL_MS) =
      .completed 1 (0 + POLL_INTERVAL_MS + POLL_INTERVAL_MS) := by
    rw [pollPhase_step_ok (by decide) rfl, if_pos (by decide)]
  have hps : performScan quickDoneDaemon "http://x/" =
      .ok ⟨"http://x/", none, [], 6000⟩ := by
    simp only [performScan, quickDoneDaemon, h1, h2, Option.getD_none]
    norm_num [POLL_INTERVAL_MS]
  exact ⟨hps,
    ((alerts_collection_bounded quickDoneDaemon "http://x/").2 rfl).1 _ hps⟩

/-! ## Status codes of the routes -/

/-- C8 counterexample: a /scan request whose URL fails validation is
answered with status 500 — the same 5xx-equivalent status used for
RemoteUnavailable and ScanTimeout failures on that route — not with a
4xx-equivalent. -/
theorem scan_route_invalid_is_500 :
    scanRoute failingDaemon "not a url" =
      .failure 500 "Scan failed" "Invalid URL" := rfl

/-- C8 amended: a validation failure never triggers any daemon
interaction, and it is surfaced as a 400 on the schedule route but through
the generic 500 error response on the scan and quick-scan routes. -/
theorem invalid_target_statuses (url : String)
    (h : normalizeUrl url = .error "Invalid URL") :
    (∀ reg, scheduleRoute reg url = (reg, .invalid 400 "Invalid URL")) ∧
    (∀ d, scanRoute d url = .failure 500 "Scan failed" "Invalid URL") ∧
    (∀ d, quickScanRoute d url = .failure 500 "Quick scan failed" "Invalid URL") ∧
    (∀ d d', scanRoute d url = scanRoute d' url) := by
  refine ⟨fun reg => ?_, fun d => ?_, fun d => ?_, fun d d' => ?_⟩
  · unfold scheduleRoute
    rw [h]
  · unfold scanRoute
    rw [h]
  · unfold quickScanRoute
    rw [h]
  · unfold scanRoute
    rw [h]

/-- C8 witness: the amended statement run on a malformed input. -/
theorem invalid_target_statuses_witness :
    normalizeUrl "not a url" = .error "Invalid URL" ∧
    scheduleRoute [] "not a url" = ([], .invalid 400 "Invalid URL") ∧
    quickScanRoute failingDaemon "not a url" =
      .failure 500 "Quick scan failed" "Invalid URL" := by
  have h := invalid_target_statuses "not a url" rfl
  exact ⟨rfl, h.1 [], h.2.2.1 failingDaemon⟩
